import Mathlib

/-!
Verification development for `jetty/get-endpoints.py`, a script that queries
cluster load balancers for their IP endpoints, aggregates them by service and
geographic region, and renders the aggregate in a terraform-friendly format.

The script is shallowly embedded: pure helpers (`get_region_symbol`,
`terraform_str`, the composite-key computation) become Lean functions; the
orchestration in `__main__` becomes explicit state passing over a `World`
record that models the external shell (command outputs, the active kubectl
context, the command log, printed lines); Python exceptions become `Except`.
The external `ipaddress` library is modelled by an abstract parse oracle of
type `String → Option IPAddr`, and Python's stable `list.sort(key=...)` is
modelled by insertion sort with the by-key preorder, which is extensionally
the unique stable sort by that key.
-/

namespace GetEndpoints

/-- Model of the external `ipaddress` library's typed address values:
`ipaddress.ip_address` returns either an `IPv4Address` or an `IPv6Address`
(`version` 4 resp. 6).  The payload is the textual form of the address. -/
inductive IPAddr where
  | v4 (text : String)
  | v6 (text : String)
deriving DecidableEq

/-- `self.address.version == 6`, the body of the `is_ipv6` method. -/
def IPAddr.is_ipv6 : IPAddr → Bool
  | .v4 _ => false
  | .v6 _ => true

/-- The `IP` dataclass of the source: a service name, the geographic symbol
stored in its `region` field, and the parsed address. -/
structure IP where
  service : String
  region : String
  address : IPAddr
deriving DecidableEq

/-- The `is_ipv6` method of the `IP` dataclass. -/
def IP.is_ipv6 (ip : IP) : Bool := ip.address.is_ipv6

/-- Case-sensitive character-by-character prefix test over char lists. -/
def prefixB : List Char → List Char → Bool
  | [], _ => true
  | _ :: _, [] => false
  | p :: ps, c :: cs => p == c && prefixB ps cs

/-- Python's `str.startswith(p)`: the string begins with the characters of
`p`, compared case-sensitively code point by code point. -/
def startswith (s p : String) : Bool := prefixB p.toList s.toList

/-- `get_region_symbol` from the source: case-sensitive prefix dispatch over
`"us"`, `"europe"`, `"asia"`, first match wins, otherwise `"other"`. -/
def get_region_symbol (region : String) : String :=
  if startswith region "us" then "amer"
  else if startswith region "europe" then "emea"
  else if startswith region "asia" then "apac"
  else "other"

/-- Python's `list.sort(key=k)` is the stable sort by `k`.  Insertion sort
with the by-key preorder produces exactly that list (stable sorts by a given
key are extensionally unique). -/
def sortByKey {α : Type} {β : Type} [LinearOrder β] (k : α → β) (l : List α) :
    List α :=
  l.insertionSort (fun a b => k a ≤ k b)

/-- The three successive stable sorts at the end of `__main__`:
by `region`, then by `is_ipv6` (`False` before `True`), then by `service`. -/
def sortThree (l : List IP) : List IP :=
  sortByKey (fun ip => ip.service.toList)
    (sortByKey (fun ip => ip.is_ipv6)
      (sortByKey (fun ip => ip.region.toList) l))

/-- Key order with ties broken by a pre-existing relation: the shape of the
ordering produced by one stable sorting pass. -/
def lexK {α : Type} {β : Type} [LinearOrder β] (k : α → β) (R : α → α → Prop)
    (a b : α) : Prop :=
  k a < k b ∨ (k a = k b ∧ R a b)

/-- The claimed three-level ordering: primarily by service name ascending,
secondarily by IP version (`v4` before `v6`), tertiarily by region symbol. -/
def threeLevelLe (a b : IP) : Prop :=
  a.service < b.service ∨ (a.service = b.service ∧
    (a.is_ipv6 < b.is_ipv6 ∨ (a.is_ipv6 = b.is_ipv6 ∧ a.region ≤ b.region)))

/-- The shape of values the generic serializer walks: Python dicts (with the
keys that occur here, strings), lists, and scalars carrying their `str()`
rendering.  Mirrors the runtime-shape dispatch of `terraform_str`. -/
inductive TVal where
  | dict (entries : List (String × TVal))
  | seq (elems : List TVal)
  | scalar (text : String)

mutual

/-- `terraform_str` from the source: a dict renders as a brace block with one
`key = value` line per entry, a list as bracketed comma-space-joined elements,
anything else as its text wrapped in double quotes with no escaping. -/
def terraform_str : TVal → String
  | .dict entries => "\x7b\n" ++ dictBody entries ++ "\x7d"
  | .seq elems => "[" ++ seqBody true elems ++ "]"
  | .scalar s => "\"" ++ s ++ "\""

/-- The dict loop of `terraform_str`. -/
def dictBody : List (String × TVal) → String
  | [] => ""
  | (k, v) :: rest => k ++ " = " ++ terraform_str v ++ "\n" ++ dictBody rest

/-- The list loop of `terraform_str` (`first` is true exactly when `i = 0`,
so `, ` precedes every element but the first). -/
def seqBody : Bool → List TVal → String
  | _, [] => ""
  | first, v :: rest =>
      (if first then "" else ", ") ++ terraform_str v ++ seqBody false rest

end

/-- Output of one external command under `subprocess.run(..., shell=True,
stdout=PIPE, stderr=STDOUT)`: the merged stdout/stderr text and the exit
status.  `run_command` never inspects the exit status. -/
structure CmdResult where
  stdout : String
  exitCode : Nat
deriving DecidableEq

/-- The context-query command issued by `PreserveContext.__enter__`. -/
def currentContextCmd : String := "kubectl config current-context"

/-- `'kubectl config use-context '` (with its trailing space), the literal
that `PreserveContext.__exit__` concatenates with the captured context. -/
def useContextPrefix : String := "kubectl config use-context "

/-- Strips `p` from the front of `s` when `s` begins with `p`. -/
def dropPrefixChars : List Char → List Char → Option (List Char)
  | [], s => some s
  | _ :: _, [] => none
  | p :: ps, c :: cs => if c = p then dropPrefixChars ps cs else none

/-- The external world seen through the shell: the active kubectl context, an
oracle giving each command's result, the commands issued so far, and the
lines printed by the script. -/
structure World where
  context : String
  outputOf : String → CmdResult
  log : List String
  printed : List String

/-- Model of executing one shell command: the output comes from the oracle; a
`kubectl config use-context <x>` command sets the active context to `<x>`;
any other command leaves it alone.  Every command is appended to the log. -/
def shellExec (w : World) (cmd : String) : CmdResult × World :=
  let ctx :=
    match dropPrefixChars useContextPrefix.data cmd.data with
    | some rest => String.mk rest
    | none => w.context
  (w.outputOf cmd, ⟨ctx, w.outputOf, w.log ++ [cmd], w.printed⟩)

/-- `run_command` from the source: returns the captured merged output text
verbatim (no trimming, no exit-status check, never raises); when
`print_output` is set the captured text is also printed. -/
def run_command (cmd : String) (print_output : Bool) (w : World) :
    String × World :=
  let p := shellExec w cmd
  if print_output then
    (p.1.stdout, ⟨p.2.context, p.2.outputOf, p.2.log, p.2.printed ++ [p.1.stdout]⟩)
  else (p.1.stdout, p.2)

/-- The `with PreserveContext():` statement: `__enter__` captures the raw
output of the context query; the body runs (returning a value or raising, the
raised error being the `Except.error` case); `__exit__` unconditionally
issues the context-switch restore command, after which the body's outcome —
value or error — propagates unchanged. -/
def withPreserveContext {ε α : Type} (body : World → Except ε α × World)
    (w : World) : Except ε α × World :=
  let c := run_command currentContextCmd false w
  let b := body c.2
  let f := run_command (useContextPrefix ++ c.1) false b.2
  (b.1, f.2)

/-- The gcloud credential-binding command issued by `UseCluster.__enter__`. -/
def gcloudCmd (cluster project : String) : String :=
  "gcloud container fleet memberships get-credentials " ++ cluster ++
    " --project " ++ project

set_option linter.unusedVariables false in
/-- The `with UseCluster(cluster, region, project):` statement: `__enter__`
first runs `PreserveContext.__enter__`, then issues the gcloud
credential-binding command; `__exit__` is inherited.  The `region` argument
is stored but never used by the class. -/
def withUseCluster {ε α : Type} (cluster region project : String)
    (body : World → Except ε α × World) (w : World) : Except ε α × World :=
  withPreserveContext
    (fun w1 => body (run_command (gcloudCmd cluster project) false w1).2) w

/-- Python's `str.split()` with no argument: maximal runs of non-whitespace
characters, so the result never contains empty fields and is `[]` exactly
when the string is all whitespace. -/
def wordsAux : List Char → List Char → List (List Char)
  | [], acc => if acc.isEmpty then [] else [acc.reverse]
  | c :: cs, acc =>
      if c.isWhitespace then
        if acc.isEmpty then wordsAux cs [] else acc.reverse :: wordsAux cs []
      else wordsAux cs (c :: acc)

/-- `content.split()` on a string. -/
def pySplit (s : String) : List String := (wordsAux s.data []).map String.mk

/-- `get_endpoints` from the source: one kubectl query for
`<resource>/<service>` with a jsonpath extraction, output split on
whitespace. -/
def get_endpoints (resource service jsonpath : String) (w : World) :
    List String × World :=
  let p := run_command
    ("kubectl get " ++ resource ++ "/" ++ service ++ " -o jsonpath=" ++
      jsonpath) false w
  (pySplit p.1, p.2)

/-- Python `dict` as an insertion-ordered association list.  `dictSet`
implements `d[k] = v`: an existing key keeps its position and receives the
new value (last write wins); a new key is appended at the end. -/
def dictSet {ν : Type} (k : String) (v : ν) :
    List (String × ν) → List (String × ν)
  | [] => [(k, v)]
  | (k', v') :: rest =>
      if k' = k then (k', v) :: rest else (k', v') :: dictSet k v rest

/-- Python `d[k]` lookup (`none` also decides `k not in d`). -/
def dictGet? {ν : Type} (k : String) : List (String × ν) → Option ν
  | [] => none
  | (k', v') :: rest => if k' = k then some v' else dictGet? k rest

/-- A value of the aggregate `res`: either the per-region mapping of a
composite service key, or the bare address stored under `"https_ip"`. -/
inductive ResVal where
  | nested (m : List (String × List IPAddr))
  | single (a : IPAddr)
deriving DecidableEq

/-- The aggregate structure `res`. -/
abbrev Res := List (String × ResVal)

/-- The mutable driver state: `res` and the flat `ips` list. -/
abbrev AggState := Res × List IP

/-- Python exceptions the driver can raise. -/
inductive PyErr where
  | indexError
  | valueError (text : String)
  | typeError
deriving DecidableEq

/-- Python's `str.replace(old, new)` for one-character arguments, the only
use in the source (`service.replace('-', '_')`). -/
def replaceChar (old new : Char) (s : String) : String :=
  String.mk (s.data.map (fun c => if c = old then new else c))

/-- The composite key computed in the services loop: `map_key` is the
service name with hyphens replaced by underscores, and the suffix comes from
the `isinstance(ip, IPv4Address)` test. -/
def map_key_with_iptype (service : String) (ip : IPAddr) : String :=
  let map_key := replaceChar '-' '_' service
  match ip with
  | .v4 _ => map_key ++ "_ipv4"
  | .v6 _ => map_key ++ "_ipv6"

/-- The body of the inner `for ip in get_endpoints(...)` loop once the
address is parsed: default the composite key to an empty dict, set its
region entry to the singleton `[ip]`, append the `IP` record.  Item
assignment through a key holding the bare `https_ip` address would be a
`TypeError` in Python. -/
def insertEndpoint (service region : String) (ip : IPAddr) (st : AggState) :
    Except PyErr AggState :=
  let key := map_key_with_iptype service ip
  let res :=
    if (dictGet? key st.1).isNone then dictSet key (.nested []) st.1 else st.1
  match dictGet? key res with
  | some (.nested m) =>
      .ok (dictSet key (.nested (dictSet (get_region_symbol region) [ip] m))
            res,
        st.2 ++ [⟨service, get_region_symbol region, ip⟩])
  | some (.single _) => .error .typeError
  | none => .error .typeError

/-- The `for ip in get_endpoints(...)` loop: parse each raw address string
(`ipaddress.ip_address` raising `ValueError` on malformed input is the
`none` case of the parse oracle) and insert it. -/
def processAddrs (parse : String → Option IPAddr) (service region : String) :
    List String → AggState → Except PyErr AggState
  | [], st => .ok st
  | a :: rest, st =>
      match parse a with
      | none => .error (.valueError a)
      | some ip =>
          match insertEndpoint service region ip st with
          | .ok st' => processAddrs parse service region rest st'
          | .error e => .error e

/-- The four fixed service names of the services loop. -/
def servicesList : List String := ["whois", "whois-canary", "epp", "epp-canary"]

/-- The jsonpath used for the per-service load-balancer queries. -/
def svcJsonpath : String := "\x7b.status.loadBalancer.ingress[*].ip\x7d"

/-- The gateway resource kind and its extraction path. -/
def gwResource : String := "gateways.gateway.networking.k8s.io"

def gwJsonpath : String := "\x7b.status.addresses[*].value\x7d"

/-- One iteration body of the `for service in [...]` loop. -/
def processService (parse : String → Option IPAddr) (region service : String)
    (st : AggState) (w : World) : Except PyErr AggState × World :=
  let q := get_endpoints "services" service svcJsonpath w
  (processAddrs parse service region q.1 st, q.2)

/-- The whole services loop. -/
def processServices (parse : String → Option IPAddr) (region : String) :
    List String → AggState → World → Except PyErr AggState × World
  | [], st, w => (.ok st, w)
  | s :: rest, st, w =>
      match processService parse region s st w with
      | (.ok st', w') => processServices parse region rest st' w'
      | (.error e, w') => (.error e, w')

/-- The tail of the cluster-loop body: when the region starts with `"us"`,
query the gateway resource kind for the fixed name `nomulus`, take element
`[0]` of the split output (an `IndexError` when it is empty), print
`nomulus: <raw value>`, parse the value, and store it under the fixed key
`"https_ip"`; otherwise `continue` to the next cluster. -/
def gatewayStage (parse : String → Option IPAddr) (region : String)
    (st : AggState) (w : World) : Except PyErr AggState × World :=
  if startswith region "us" = false then (.ok st, w)
  else
    let g := get_endpoints gwResource "nomulus" gwJsonpath w
    match g.1 with
    | [] => (.error .indexError, g.2)
    | ip :: _ =>
        let w4 : World := ⟨g.2.context, g.2.outputOf, g.2.log,
          g.2.printed ++ ["nomulus: " ++ ip]⟩
        match parse ip with
        | none => (.error (.valueError ip), w4)
        | some a => (.ok (dictSet "https_ip" (.single a) st.1, st.2), w4)

/-- One iteration of the cluster loop of `__main__`, inside
`with UseCluster(...)`: run the four service queries, then the gateway
stage. -/
def processCluster (parse : String → Option IPAddr)
    (cluster region project : String) (st : AggState) (w : World) :
    Except PyErr AggState × World :=
  withUseCluster cluster region project
    (fun w1 =>
      match processServices parse region servicesList st w1 with
      | (.error e, w2) => (.error e, w2)
      | (.ok st', w2) => gatewayStage parse region st' w2) w

/-- The `for cluster, region in clusters.items()` loop. -/
def runClusters (parse : String → Option IPAddr) (project : String) :
    List (String × String) → AggState → World → Except PyErr AggState × World
  | [], st, w => (.ok st, w)
  | (c, r) :: rest, st, w =>
      match processCluster parse c r project st w with
      | (.ok st', w') => runClusters parse project rest st' w'
      | (.error e, w') => (.error e, w')

/-- The raw text captured by `PreserveContext.__enter__`. -/
def capturedContext (w : World) : String :=
  (run_command currentContextCmd false w).1

/-- The world after the capture command of `PreserveContext.__enter__`. -/
def afterCapture (w : World) : World :=
  (run_command currentContextCmd false w).2

/-- The world after `UseCluster.__enter__` (capture, then credential
binding). -/
def afterEnter (cluster project : String) (w : World) : World :=
  (run_command (gcloudCmd cluster project) false (afterCapture w)).2

/-- Concrete world for witnesses: every command reports `"the-context"`. -/
def wCtx : World := ⟨"the-context", fun _ => ⟨"the-context", 0⟩, [], []⟩

/-- A body that raises. -/
def bodyRaise : World → Except String Nat × World := fun w => (.error "boom", w)

/-- Example world whose context query reports a trailing-newline string. -/
def wNl : World := ⟨"my-ctx", fun _ => ⟨"my-ctx\n", 0⟩, [], []⟩

/-- A body that returns normally without touching the world. -/
def bodyNoop : World → Except String Nat × World := fun w => (.ok 0, w)

/-- A command behaviour that succeeds with output `"payload"`. -/
def outOk : String → CmdResult := fun _ => ⟨"payload", 0⟩

/-- The same output text, but a failing exit status. -/
def outFail : String → CmdResult := fun _ => ⟨"payload", 137⟩

/-- C6's invariant: every composite-key entry of the aggregate maps each
present geographic symbol to a singleton sequence. -/
def SingletonInv (res : Res) : Prop :=
  ∀ kv ∈ res, ∀ m, kv.2 = ResVal.nested m → ∀ sv ∈ m, sv.2.length = 1

/-- Output oracle returning empty text for every command. -/
def emptyOut : String → CmdResult := fun _ => ⟨"", 0⟩

/-- World in which every command returns empty output. -/
def wEmpty : World := ⟨"ctx", emptyOut, [], []⟩

/-- The services-loop command for one service. -/
def svcCmdOf (service : String) : String :=
  "kubectl get " ++ "services" ++ "/" ++ service ++ " -o jsonpath=" ++
    svcJsonpath

/-- The world after `UseCluster("c", _, "p").__enter__` and the four service
queries, all returning empty output, starting from `wEmpty`. -/
def wSvcDone : World :=
  ⟨"ctx", emptyOut,
    [currentContextCmd, gcloudCmd "c" "p", svcCmdOf "whois",
     svcCmdOf "whois-canary", svcCmdOf "epp", svcCmdOf "epp-canary"], []⟩

/-- `wSvcDone` after the scope's restore command (`wEmpty`'s context query
returned the empty string, so the restored context is the empty string). -/
def wExit : World :=
  ⟨"", emptyOut,
    [currentContextCmd, gcloudCmd "c" "p", svcCmdOf "whois",
     svcCmdOf "whois-canary", svcCmdOf "epp", svcCmdOf "epp-canary",
     useContextPrefix ++ ""], []⟩

/-- Oracle whose every command reports one IPv4 address. -/
def outV4 : String → CmdResult := fun _ => ⟨"1.2.3.4", 0⟩

/-- World built on `outV4`. -/
def wV4 : World := ⟨"ctx", outV4, [], []⟩

/-- Parse oracle recognising exactly `"1.2.3.4"`. -/
def parseV4 : String → Option IPAddr :=
  fun s => if s = "1.2.3.4" then some (.v4 "1.2.3.4") else none

/-- The aggregate state after inserting a v6 address for `whois-canary`
in an `"us"` region into the empty state. -/
def stW5 : AggState :=
  ([("whois_canary_ipv6", ResVal.nested [("amer", [IPAddr.v6 "::1"])])],
   [⟨"whois-canary", "amer", .v6 "::1"⟩])

/-- The aggregate state after inserting a v4 address for `epp` in an
`"us"` region into the empty state. -/
def stW6 : AggState :=
  ([("epp_ipv4", ResVal.nested [("amer", [IPAddr.v4 "1.2.3.4"])])],
   [⟨"epp", "amer", .v4 "1.2.3.4"⟩])

theorem lexK_le {α : Type} {β : Type} [LinearOrder β] {k : α → β}
    {R : α → α → Prop} {a b : α} (h : lexK k R a b) : k a ≤ k b := by
  rcases h with h | ⟨h, -⟩
  · exact le_of_lt h
  · exact le_of_eq h

theorem pairwise_orderedInsert_lexK {α : Type} {β : Type} [LinearOrder β]
    (k : α → β) (R : α → α → Prop) (x : α) :
    ∀ l : List α, l.Pairwise (lexK k R) → (∀ y ∈ l, R x y) →
      (l.orderedInsert (fun a b => k a ≤ k b) x).Pairwise (lexK k R)
  | [], _, _ => by simp [lexK]
  | b :: t, hl, hx => by
    simp only [List.orderedInsert]
    by_cases h : k x ≤ k b
    · rw [if_pos h]
      refine List.Pairwise.cons ?_ hl
      intro y hy
      have hby := (List.pairwise_cons.mp hl).1
      have hky : k x ≤ k y := by
        rcases List.mem_cons.mp hy with rfl | hy'
        · exact h
        · exact le_trans h (lexK_le (hby y hy'))
      rcases lt_or_eq_of_le hky with hlt | heq
      · exact Or.inl hlt
      · exact Or.inr ⟨heq, hx y hy⟩
    · rw [if_neg h]
      have hbx : k b < k x := lt_of_not_le h
      refine List.Pairwise.cons ?_
        (pairwise_orderedInsert_lexK k R x t (List.Pairwise.of_cons hl)
          (fun y hy => hx y (List.mem_cons_of_mem b hy)))
      intro y hy
      rcases (List.mem_orderedInsert _).mp hy with rfl | hy'
      · exact Or.inl hbx
      · exact (List.pairwise_cons.mp hl).1 y hy'

theorem pairwise_sortByKey_lexK {α : Type} {β : Type} [LinearOrder β]
    (k : α → β) (R : α → α → Prop) :
    ∀ l : List α, l.Pairwise R → (sortByKey k l).Pairwise (lexK k R)
  | [], _ => by simp [sortByKey]
  | x :: t, h => by
    have hx := (List.pairwise_cons.mp h).1
    have ht := (List.pairwise_cons.mp h).2
    show (List.orderedInsert _ x (List.insertionSort _ t)).Pairwise _
    exact pairwise_orderedInsert_lexK k R x _ (pairwise_sortByKey_lexK k R t ht)
      (fun y hy => hx y ((List.mem_insertionSort _).mp hy))

theorem sortByKey_perm {α : Type} {β : Type} [LinearOrder β] (k : α → β)
    (l : List α) : List.Perm (sortByKey k l) l :=
  List.perm_insertionSort _ l

theorem pairwise_trivial {α : Type} (l : List α) :
    l.Pairwise (fun _ _ => True) := by
  induction l with
  | nil => exact List.Pairwise.nil
  | cons x t ih => exact List.Pairwise.cons (fun _ _ => trivial) ih

theorem lexK_imp_threeLevel (a b : IP) :
    lexK (fun ip => ip.service.toList)
      (lexK (fun ip => ip.is_ipv6)
        (lexK (fun ip => ip.region.toList) (fun _ _ => True))) a b →
    threeLevelLe a b := by
  rintro (h | ⟨hs, h | ⟨hv, h | ⟨hr, -⟩⟩⟩)
  · exact Or.inl (String.lt_iff_toList_lt.mpr h)
  · exact Or.inr ⟨String.toList_inj.mp hs, Or.inl h⟩
  · exact Or.inr ⟨String.toList_inj.mp hs,
      Or.inr ⟨hv, le_of_lt (String.lt_iff_toList_lt.mpr h)⟩⟩
  · exact Or.inr ⟨String.toList_inj.mp hs,
      Or.inr ⟨hv, le_of_eq (String.toList_inj.mp hr)⟩⟩

/-- C1: the three successive stable sorts (region, then IP version, then
service) order the list primarily by service name, secondarily by IP version
with v4 before v6, tertiarily by region symbol; the sorted list is a
rearrangement of the input, and on the concrete three-record input of the
spec it yields exactly the expected output. -/
theorem sortThree_orders_three_level :
    (∀ l : List IP,
      (sortThree l).Pairwise threeLevelLe ∧ List.Perm (sortThree l) l) ∧
    sortThree
        [⟨"b", "amer", .v6 "::1"⟩, ⟨"a", "emea", .v4 "1.2.3.4"⟩,
         ⟨"a", "amer", .v4 "5.6.7.8"⟩] =
      [⟨"a", "amer", .v4 "5.6.7.8"⟩, ⟨"a", "emea", .v4 "1.2.3.4"⟩,
       ⟨"b", "amer", .v6 "::1"⟩] := by
  constructor
  · intro l
    constructor
    · exact List.Pairwise.imp (fun h => lexK_imp_threeLevel _ _ h)
        (pairwise_sortByKey_lexK _ _ _
          (pairwise_sortByKey_lexK _ _ _
            (pairwise_sortByKey_lexK _ _ _ (pairwise_trivial l))))
    · exact ((sortByKey_perm _ _).trans
        ((sortByKey_perm _ _).trans (sortByKey_perm _ _)))
  · decide

/-- C4: `get_region_symbol` returns exactly one of the four symbols, each
characterised by the case-sensitive prefix tests in order (`"us"`, then
`"europe"`, then `"asia"`, first match wins, no match gives `"other"`); in
particular `"useurope"` maps to `"amer"`. -/
theorem get_region_symbol_spec :
    (∀ region : String,
      (get_region_symbol region = "amer" ↔ startswith region "us" = true) ∧
      (get_region_symbol region = "emea" ↔
        startswith region "us" = false ∧ startswith region "europe" = true) ∧
      (get_region_symbol region = "apac" ↔
        startswith region "us" = false ∧ startswith region "europe" = false ∧
          startswith region "asia" = true) ∧
      (get_region_symbol region = "other" ↔
        startswith region "us" = false ∧ startswith region "europe" = false ∧
          startswith region "asia" = false) ∧
      (get_region_symbol region = "amer" ∨ get_region_symbol region = "emea" ∨
        get_region_symbol region = "apac" ∨
          get_region_symbol region = "other")) ∧
    get_region_symbol "useurope" = "amer" := by
  refine ⟨fun region => ?_, by decide⟩
  unfold get_region_symbol
  cases hus : startswith region "us" <;>
    cases heu : startswith region "europe" <;>
      cases has : startswith region "asia" <;>
        simp

theorem intercalate_go_append (s : String) :
    ∀ (l : List String) (acc : String),
      String.intercalate.go acc s l =
        acc ++ (l.map (fun t => s ++ t)).foldr (· ++ ·) ""
  | [], acc => by simp [String.intercalate.go]
  | a :: as, acc => by
    rw [String.intercalate.go, intercalate_go_append s as (acc ++ s ++ a)]
    simp [String.append_assoc]

theorem seqBody_false_eq (l : List TVal) :
    seqBody false l =
      (l.map (fun v => ", " ++ terraform_str v)).foldr (· ++ ·) "" := by
  induction l with
  | nil => rfl
  | cons v rest ih => simp [seqBody, ih]

theorem seqBody_intercalate (l : List TVal) :
    seqBody true l = String.intercalate ", " (l.map terraform_str) := by
  cases l with
  | nil => rfl
  | cons v rest =>
    simp [seqBody, String.intercalate, intercalate_go_append,
      seqBody_false_eq, Function.comp_def]

theorem dictBody_eq_lines (entries : List (String × TVal)) :
    dictBody entries =
      (entries.map (fun kv =>
        kv.1 ++ " = " ++ terraform_str kv.2 ++ "\n")).foldr (· ++ ·) "" := by
  induction entries with
  | nil => rfl
  | cons kv rest ih => simp [dictBody, ih, String.append_assoc]

/-- C8: the generic serializer renders a mapping as `{`, one
`key = <rendered value>` line per entry in iteration order, `}`; a sequence
as `[` with comma-space-joined rendered elements then `]`; any other value as
its text wrapped in double quotes; and the mapping `{"a": ["1","2"]}` renders
exactly as the three lines `{`, `a = ["1", "2"]`, `}`. -/
theorem terraform_str_rendering :
    (∀ entries : List (String × TVal),
      terraform_str (.dict entries) =
        "\x7b\n" ++
          ((entries.map (fun kv =>
            kv.1 ++ " = " ++ terraform_str kv.2 ++ "\n")).foldr (· ++ ·) "")
          ++ "\x7d") ∧
    (∀ elems : List TVal,
      terraform_str (.seq elems) =
        "[" ++ String.intercalate ", " (elems.map terraform_str) ++ "]") ∧
    (∀ s : String, terraform_str (.scalar s) = "\"" ++ s ++ "\"") ∧
    terraform_str (.dict [("a", .seq [.scalar "1", .scalar "2"])]) =
      "\x7b\na = [\"1\", \"2\"]\n\x7d" := by
  refine ⟨fun entries => ?_, fun elems => ?_, fun s => rfl, by decide⟩
  · rw [terraform_str, dictBody_eq_lines]
  · rw [terraform_str, seqBody_intercalate]

theorem dropPrefixChars_append (p : List Char) :
    ∀ s : List Char, dropPrefixChars p (p ++ s) = some s := by
  induction p with
  | nil => intro s; rfl
  | cons c cs ih => intro s; simp [dropPrefixChars, ih]

theorem shellExec_useContext (w : World) (s : String) :
    shellExec w (useContextPrefix ++ s) =
      (w.outputOf (useContextPrefix ++ s),
        ⟨s, w.outputOf, w.log ++ [useContextPrefix ++ s], w.printed⟩) := by
  unfold shellExec
  rw [String.data_append, dropPrefixChars_append]

theorem run_command_useContext (w : World) (s : String) :
    run_command (useContextPrefix ++ s) false w =
      ((w.outputOf (useContextPrefix ++ s)).stdout,
        ⟨s, w.outputOf, w.log ++ [useContextPrefix ++ s], w.printed⟩) := by
  simp only [run_command, shellExec_useContext]
  rfl

theorem capturedContext_eq (w : World) :
    capturedContext w = (w.outputOf currentContextCmd).stdout := rfl

theorem withPreserveContext_eq {ε α : Type}
    (body : World → Except ε α × World) (w : World) :
    withPreserveContext body w =
      ((body (afterCapture w)).1,
        ⟨capturedContext w,
         (body (afterCapture w)).2.outputOf,
         (body (afterCapture w)).2.log
           ++ [useContextPrefix ++ capturedContext w],
         (body (afterCapture w)).2.printed⟩) := by
  show ((body (afterCapture w)).1,
      (run_command (useContextPrefix ++ capturedContext w) false
        (body (afterCapture w)).2).2) = _
  rw [run_command_useContext]

/-- C3: for every Context Scope execution — whether the body returns
normally or raises — the restore command is issued exactly once, as the
single command after the body's, with the context identifier captured on
entry; the active context afterwards equals the context before the scope;
and the body's outcome (value or error) propagates unchanged.  The same
holds for `UseCluster`, whose `__enter__` additionally binds credentials.
The hypothesis says the context query faithfully reports the active
context. -/
theorem preserveContext_scope {ε α : Type}
    (body : World → Except ε α × World) (w : World)
    (hq : (w.outputOf currentContextCmd).stdout = w.context) :
    ((withPreserveContext body w).1 = (body (afterCapture w)).1 ∧
      (withPreserveContext body w).2.context = w.context ∧
      (withPreserveContext body w).2.log
        = (body (afterCapture w)).2.log
            ++ [useContextPrefix ++ capturedContext w]) ∧
    (∀ cluster region project : String,
      (withUseCluster cluster region project body w).1
          = (body (afterEnter cluster project w)).1 ∧
      (withUseCluster cluster region project body w).2.context = w.context ∧
      (withUseCluster cluster region project body w).2.log
        = (body (afterEnter cluster project w)).2.log
            ++ [useContextPrefix ++ capturedContext w]) := by
  have hcap : capturedContext w = w.context := by
    rw [capturedContext_eq, hq]
  constructor
  · rw [withPreserveContext_eq]
    exact ⟨rfl, hcap, rfl⟩
  · intro cluster region project
    unfold withUseCluster
    rw [withPreserveContext_eq]
    exact ⟨rfl, hcap, rfl⟩

theorem preserveContext_scope_witness :
    (wCtx.outputOf currentContextCmd).stdout = wCtx.context ∧
    (((withPreserveContext bodyRaise wCtx).1
          = (bodyRaise (afterCapture wCtx)).1 ∧
        (withPreserveContext bodyRaise wCtx).2.context = wCtx.context ∧
        (withPreserveContext bodyRaise wCtx).2.log
          = (bodyRaise (afterCapture wCtx)).2.log
              ++ [useContextPrefix ++ capturedContext wCtx]) ∧
      (∀ cluster region project : String,
        (withUseCluster cluster region project bodyRaise wCtx).1
            = (bodyRaise (afterEnter cluster project wCtx)).1 ∧
        (withUseCluster cluster region project bodyRaise wCtx).2.context
            = wCtx.context ∧
        (withUseCluster cluster region project bodyRaise wCtx).2.log
          = (bodyRaise (afterEnter cluster project wCtx)).2.log
              ++ [useContextPrefix ++ capturedContext wCtx])) :=
  ⟨rfl, preserveContext_scope bodyRaise wCtx rfl⟩

/-- C10: the identifier captured on Context Scope entry is the raw,
untrimmed output of the context query — any trailing newline included — and
the restore command is exactly `'kubectl config use-context '` concatenated
with that text, with no whitespace stripping between capture and restore;
concretely a query output of `"my-ctx\n"` makes the scope issue exactly
`"kubectl config use-context my-ctx\n"`. -/
theorem preserveContext_no_trim :
    (∀ (body : World → Except String Nat × World) (w : World),
      capturedContext w = (w.outputOf currentContextCmd).stdout ∧
      (withPreserveContext body w).2.log
        = (body (afterCapture w)).2.log
            ++ [useContextPrefix ++ (w.outputOf currentContextCmd).stdout]) ∧
    (withPreserveContext bodyNoop wNl).2.log
      = [currentContextCmd, "kubectl config use-context my-ctx\n"] := by
  constructor
  · intro body w
    refine ⟨capturedContext_eq w, ?_⟩
    rw [withPreserveContext_eq, capturedContext_eq]
  · decide

/-- C9: `run_command` returns the captured merged output text verbatim for
every exit status and never raises or otherwise signals failure: two
command behaviours that produce the same output text are indistinguishable
through `run_command` even when their exit statuses differ. -/
theorem run_command_exit_blind :
    (∀ (cmd : String) (b : Bool) (w : World),
      (run_command cmd b w).1 = (w.outputOf cmd).stdout) ∧
    (∀ (cmd : String) (b : Bool) (ctx : String) (lg pr : List String)
        (f g : String → CmdResult),
      (∀ c, (f c).stdout = (g c).stdout) →
      (run_command cmd b ⟨ctx, f, lg, pr⟩).1
          = (run_command cmd b ⟨ctx, g, lg, pr⟩).1 ∧
      (run_command cmd b ⟨ctx, f, lg, pr⟩).2.context
          = (run_command cmd b ⟨ctx, g, lg, pr⟩).2.context ∧
      (run_command cmd b ⟨ctx, f, lg, pr⟩).2.log
          = (run_command cmd b ⟨ctx, g, lg, pr⟩).2.log ∧
      (run_command cmd b ⟨ctx, f, lg, pr⟩).2.printed
          = (run_command cmd b ⟨ctx, g, lg, pr⟩).2.printed) := by
  constructor
  · intro cmd b w
    cases b <;> rfl
  · intro cmd b ctx lg pr f g hfg
    cases b
    · exact ⟨hfg cmd, rfl, rfl, rfl⟩
    · refine ⟨hfg cmd, rfl, rfl, ?_⟩
      show pr ++ [(f cmd).stdout] = pr ++ [(g cmd).stdout]
      rw [hfg cmd]

theorem run_command_exit_blind_witness :
    (∀ c, (outOk c).stdout = (outFail c).stdout) ∧
    ((run_command "kubectl get pods" true ⟨"c", outOk, [], []⟩).1
        = (run_command "kubectl get pods" true ⟨"c", outFail, [], []⟩).1 ∧
      (run_command "kubectl get pods" true ⟨"c", outOk, [], []⟩).2.context
        = (run_command "kubectl get pods" true ⟨"c", outFail, [], []⟩).2.context ∧
      (run_command "kubectl get pods" true ⟨"c", outOk, [], []⟩).2.log
        = (run_command "kubectl get pods" true ⟨"c", outFail, [], []⟩).2.log ∧
      (run_command "kubectl get pods" true ⟨"c", outOk, [], []⟩).2.printed
        = (run_command "kubectl get pods" true ⟨"c", outFail, [], []⟩).2.printed) :=
  ⟨fun _ => rfl,
    run_command_exit_blind.2 "kubectl get pods" true "c" [] [] outOk outFail
      (fun _ => rfl)⟩

theorem dictGet?_dictSet_self {ν : Type} (k : String) (v : ν) :
    ∀ d : List (String × ν), dictGet? k (dictSet k v d) = some v
  | [] => by simp [dictSet, dictGet?]
  | (k0, v0) :: rest => by
    by_cases h : k0 = k
    · simp [dictSet, dictGet?, h]
    · simp [dictSet, dictGet?, h, dictGet?_dictSet_self k v rest]

theorem dictGet?_dictSet_ne {ν : Type} {k k' : String} (hne : k' ≠ k) (v : ν) :
    ∀ d : List (String × ν), dictGet? k' (dictSet k v d) = dictGet? k' d
  | [] => by
    have hkk : ¬ k = k' := fun h => hne h.symm
    simp [dictSet, dictGet?, hkk]
  | (k0, v0) :: rest => by
    by_cases h : k0 = k
    · subst h
      have hkk : ¬ k0 = k' := fun h => hne h.symm
      simp [dictSet, dictGet?, hkk]
    · simp only [dictSet, if_neg h, dictGet?]
      by_cases h0 : k0 = k'
      · simp [h0]
      · simp [h0, dictGet?_dictSet_ne hne v rest]

theorem mem_dictSet {ν : Type} {k : String} {v : ν} :
    ∀ {d : List (String × ν)} {x : String × ν},
      x ∈ dictSet k v d → x = (k, v) ∨ x ∈ d := by
  intro d
  induction d with
  | nil =>
    intro x hx
    simp [dictSet] at hx
    exact Or.inl hx
  | cons kv rest ih =>
    intro x hx
    rcases kv with ⟨k0, v0⟩
    by_cases h : k0 = k
    · subst h
      simp only [dictSet, if_pos rfl] at hx
      rcases List.mem_cons.mp hx with h1 | h1
      · exact Or.inl h1
      · exact Or.inr (List.mem_cons_of_mem _ h1)
    · simp only [dictSet, if_neg h] at hx
      rcases List.mem_cons.mp hx with h1 | h1
      · exact Or.inr (by rw [h1]; exact List.mem_cons_self _ _)
      · rcases ih h1 with h2 | h2
        · exact Or.inl h2
        · exact Or.inr (List.mem_cons_of_mem _ h2)

theorem dictGet?_mem {ν : Type} {k : String} {v : ν} :
    ∀ {d : List (String × ν)}, dictGet? k d = some v → (k, v) ∈ d := by
  intro d
  induction d with
  | nil => intro h; simp [dictGet?] at h
  | cons kv rest ih =>
    intro h
    rcases kv with ⟨k0, v0⟩
    simp only [dictGet?] at h
    by_cases h0 : k0 = k
    · rw [if_pos h0] at h
      injection h with h1
      subst h1
      rw [h0]
      exact List.mem_cons_self _ _
    · rw [if_neg h0] at h
      exact List.mem_cons_of_mem _ (ih h)

theorem insertEndpoint_eq (service region : String) (ip : IPAddr)
    (st : AggState) :
    insertEndpoint service region ip st =
      match dictGet? (map_key_with_iptype service ip) st.1 with
      | some (.single _) => .error .typeError
      | some (.nested m) =>
          .ok (dictSet (map_key_with_iptype service ip)
                (.nested (dictSet (get_region_symbol region) [ip] m)) st.1,
               st.2 ++ [⟨service, get_region_symbol region, ip⟩])
      | none =>
          .ok (dictSet (map_key_with_iptype service ip)
                (.nested (dictSet (get_region_symbol region) [ip] []))
                (dictSet (map_key_with_iptype service ip) (.nested []) st.1),
               st.2 ++ [⟨service, get_region_symbol region, ip⟩]) := by
  rcases h0 : dictGet? (map_key_with_iptype service ip) st.1 with _ | v
  · simp [insertEndpoint, h0, dictGet?_dictSet_self]
  · rcases v with m | a <;> simp [insertEndpoint, h0]

/-- C5: the composite key equals the service name with every hyphen
replaced by an underscore, followed by `_ipv4`/`_ipv6` strictly according
to the parsed address's version; the key does not depend on the region and
always agrees with the IP-version classification of the Endpoint Record
appended for the same address; a successful insertion writes exactly under
that key and nowhere else. -/
theorem composite_key_spec (service region : String) (ip : IPAddr)
    (st : AggState) :
    map_key_with_iptype service ip
      = replaceChar '-' '_' service ++
          (if ip.is_ipv6 then "_ipv6" else "_ipv4") ∧
    map_key_with_iptype service ip
      = replaceChar '-' '_' service ++
          (if (IP.mk service (get_region_symbol region) ip).is_ipv6
            then "_ipv6" else "_ipv4") ∧
    (∀ st', insertEndpoint service region ip st = .ok st' →
      st'.2 = st.2 ++ [⟨service, get_region_symbol region, ip⟩] ∧
      (∃ m, dictGet? (map_key_with_iptype service ip) st'.1
          = some (.nested m) ∧
        dictGet? (get_region_symbol region) m = some [ip]) ∧
      ∀ k, k ≠ map_key_with_iptype service ip →
        dictGet? k st'.1 = dictGet? k st.1) := by
  refine ⟨by cases ip <;> rfl, by cases ip <;> rfl, ?_⟩
  intro st' h
  rw [insertEndpoint_eq] at h
  rcases h0 : dictGet? (map_key_with_iptype service ip) st.1 with _ | v
  · rw [h0] at h
    cases h
    refine ⟨rfl, ⟨dictSet (get_region_symbol region) [ip] [], ?_, ?_⟩, ?_⟩
    · exact dictGet?_dictSet_self _ _ _
    · exact dictGet?_dictSet_self _ _ _
    · intro k hk
      rw [dictGet?_dictSet_ne hk, dictGet?_dictSet_ne hk]
  · rcases v with m | a
    · rw [h0] at h
      cases h
      refine ⟨rfl, ⟨dictSet (get_region_symbol region) [ip] m, ?_, ?_⟩, ?_⟩
      · exact dictGet?_dictSet_self _ _ _
      · exact dictGet?_dictSet_self _ _ _
      · intro k hk
        rw [dictGet?_dictSet_ne hk]
    · rw [h0] at h
      cases h

theorem SingletonInv_dictSet {k : String} {v : ResVal} {d : Res}
    (hd : SingletonInv d)
    (hv : ∀ m, v = ResVal.nested m → ∀ sv ∈ m, sv.2.length = 1) :
    SingletonInv (dictSet k v d) := by
  intro kv hkv m hm sv hsv
  rcases mem_dictSet hkv with rfl | hkv'
  · exact hv m hm sv hsv
  · exact hd kv hkv' m hm sv hsv

theorem singleton_value_ok {region : String} {ip : IPAddr}
    {m0 : List (String × List IPAddr)}
    (hm0 : ∀ sv ∈ m0, sv.2.length = 1) :
    ∀ m, ResVal.nested (dictSet (get_region_symbol region) [ip] m0)
        = ResVal.nested m → ∀ sv ∈ m, sv.2.length = 1 := by
  intro m hm sv hsv
  cases hm
  rcases mem_dictSet hsv with rfl | h
  · rfl
  · exact hm0 sv h

theorem insertEndpoint_singleton {service region : String} {ip : IPAddr}
    {st st' : AggState} (hinv : SingletonInv st.1)
    (h : insertEndpoint service region ip st = .ok st') :
    SingletonInv st'.1 := by
  rw [insertEndpoint_eq] at h
  rcases h0 : dictGet? (map_key_with_iptype service ip) st.1 with _ | v
  · rw [h0] at h
    cases h
    refine SingletonInv_dictSet (SingletonInv_dictSet hinv ?_) ?_
    · intro m hm sv hsv
      cases hm
      cases hsv
    · exact singleton_value_ok (by intro sv hsv; cases hsv)
  · rcases v with m | a
    · rw [h0] at h
      cases h
      exact SingletonInv_dictSet hinv
        (singleton_value_ok (hinv _ (dictGet?_mem h0) m rfl))
    · rw [h0] at h
      cases h

theorem processAddrs_singleton (parse : String → Option IPAddr)
    (service region : String) :
    ∀ (addrs : List String) (st st' : AggState), SingletonInv st.1 →
      processAddrs parse service region addrs st = .ok st' →
      SingletonInv st'.1
  | [], st, st', hinv, h => by
    simp only [processAddrs, Except.ok.injEq] at h
    rw [← h]
    exact hinv
  | a :: rest, st, st', hinv, h => by
    simp only [processAddrs] at h
    rcases hp : parse a with _ | ip
    · simp only [hp] at h
      exact Except.noConfusion h
    · simp only [hp] at h
      rcases hi : insertEndpoint service region ip st with e | st1
      · simp only [hi] at h
        exact Except.noConfusion h
      · simp only [hi] at h
        exact processAddrs_singleton parse service region rest st1 st'
          (insertEndpoint_singleton hinv hi) h

theorem processServices_singleton (parse : String → Option IPAddr)
    (region : String) :
    ∀ (svcs : List String) (st : AggState) (w : World) (st' : AggState)
      (w' : World), SingletonInv st.1 →
      processServices parse region svcs st w = (.ok st', w') →
      SingletonInv st'.1
  | [], st, w, st', w', hinv, h => by
    simp only [processServices, Prod.mk.injEq, Except.ok.injEq] at h
    rw [← h.1]
    exact hinv
  | s :: rest, st, w, st', w', hinv, h => by
    simp only [processServices, processService] at h
    rcases hr : processAddrs parse s region
        (get_endpoints "services" s svcJsonpath w).1 st with e | st1
    · simp only [hr] at h
      exact Except.noConfusion (congrArg Prod.fst h)
    · simp only [hr] at h
      exact processServices_singleton parse region rest st1 _ st' w'
        (processAddrs_singleton parse s region _ st st1 hinv hr) h

theorem gatewayStage_singleton {parse : String → Option IPAddr}
    {region : String} {st : AggState} {w : World} {st' : AggState}
    {w' : World} (hinv : SingletonInv st.1)
    (h : gatewayStage parse region st w = (.ok st', w')) :
    SingletonInv st'.1 := by
  unfold gatewayStage at h
  by_cases hus : startswith region "us" = false
  · rw [if_pos hus] at h
    cases h
    exact hinv
  · rw [if_neg hus] at h
    rcases hg : (get_endpoints gwResource "nomulus" gwJsonpath w).1
        with _ | ⟨ip, rest⟩
    · simp only [hg] at h
      exact Except.noConfusion (congrArg Prod.fst h)
    · simp only [hg] at h
      rcases hp : parse ip with _ | a
      · simp only [hp] at h
        exact Except.noConfusion (congrArg Prod.fst h)
      · simp only [hp, Prod.mk.injEq, Except.ok.injEq] at h
        rw [← h.1]
        refine SingletonInv_dictSet hinv ?_
        intro m hm
        cases hm

theorem processCluster_fst (parse : String → Option IPAddr)
    (cluster region project : String) (st : AggState) (w : World) :
    (processCluster parse cluster region project st w).1
      = ((match processServices parse region servicesList st
             (afterEnter cluster project w) with
          | (Except.error e, w2) => (Except.error e, w2)
          | (Except.ok st2, w2) => gatewayStage parse region st2 w2 :
          Except PyErr AggState × World)).1 := by
  unfold processCluster withUseCluster
  rw [withPreserveContext_eq]
  rfl

theorem processCluster_singleton {parse : String → Option IPAddr}
    {cluster region project : String} {st : AggState} {w : World}
    {st' : AggState} {w' : World} (hinv : SingletonInv st.1)
    (h : processCluster parse cluster region project st w = (.ok st', w')) :
    SingletonInv st'.1 := by
  have h1 : (processCluster parse cluster region project st w).1 = .ok st' := by
    rw [h]
  rw [processCluster_fst] at h1
  rcases hps : processServices parse region servicesList st
      (afterEnter cluster project w) with ⟨r, w2⟩
  rw [hps] at h1
  rcases r with e | st2
  · exact Except.noConfusion h1
  · have hinv2 : SingletonInv st2.1 :=
      processServices_singleton parse region servicesList st _ st2 w2 hinv hps
    have h2 : (gatewayStage parse region st2 w2).1 = .ok st' := h1
    rcases hgw : gatewayStage parse region st2 w2 with ⟨r2, w3⟩
    rw [hgw] at h2
    cases r2 with
    | error e => cases h2
    | ok st3 =>
      cases h2
      exact gatewayStage_singleton hinv2 hgw

theorem runClusters_singleton (parse : String → Option IPAddr)
    (project : String) :
    ∀ (clusters : List (String × String)) (st : AggState) (w : World)
      (st' : AggState) (w' : World), SingletonInv st.1 →
      runClusters parse project clusters st w = (.ok st', w') →
      SingletonInv st'.1
  | [], st, w, st', w', hinv, h => by
    simp only [runClusters, Prod.mk.injEq, Except.ok.injEq] at h
    rw [← h.1]
    exact hinv
  | (c, r) :: rest, st, w, st', w', hinv, h => by
    simp only [runClusters] at h
    rcases hc : processCluster parse c r project st w with ⟨rc, w2⟩
    simp only [hc] at h
    rcases rc with e | st2
    · exact Except.noConfusion (congrArg Prod.fst h)
    · exact runClusters_singleton parse project rest st2 w2 st' w'
        (processCluster_singleton hinv hc) h

/-- C6: inserting an address always writes the singleton `[ip]` for its
(composite key, symbol) pair, replacing any previous entry for that pair;
the singleton-per-symbol invariant is preserved by every insertion and
every cluster iteration, and holds for the aggregate of every successful
run started from the empty aggregate. -/
theorem aggregate_singleton (parse : String → Option IPAddr) :
    (∀ (service region : String) (ip : IPAddr) (st st' : AggState),
      SingletonInv st.1 → insertEndpoint service region ip st = .ok st' →
      SingletonInv st'.1 ∧
      ∃ m, dictGet? (map_key_with_iptype service ip) st'.1
          = some (.nested m) ∧
        dictGet? (get_region_symbol region) m = some [ip]) ∧
    (∀ (cluster region project : String) (st : AggState) (w : World)
        (st' : AggState) (w' : World),
      SingletonInv st.1 →
      processCluster parse cluster region project st w = (.ok st', w') →
      SingletonInv st'.1) ∧
    (∀ (project : String) (clusters : List (String × String)) (w : World)
        (st' : AggState) (w' : World),
      runClusters parse project clusters ([], []) w = (.ok st', w') →
      SingletonInv st'.1) := by
  refine ⟨?_, ?_, ?_⟩
  · intro service region ip st st' hinv h
    exact ⟨insertEndpoint_singleton hinv h,
      ((composite_key_spec service region ip st).2.2 st' h).2.1⟩
  · intro cluster region project st w st' w' hinv h
    exact processCluster_singleton hinv h
  · intro project clusters w st' w' h
    exact runClusters_singleton parse project clusters ([], []) w st' w'
      (by intro kv hkv; cases hkv) h

theorem outputOf_run_command (cmd : String) (b : Bool) (w : World) :
    (run_command cmd b w).2.outputOf = w.outputOf := by
  cases b <;> rfl

theorem get_endpoints_fst (resource service jsonpath : String) (w : World) :
    (get_endpoints resource service jsonpath w).1
      = pySplit ((w.outputOf ("kubectl get " ++ resource ++ "/" ++ service
          ++ " -o jsonpath=" ++ jsonpath)).stdout) := rfl

theorem outputOf_get_endpoints (resource service jsonpath : String)
    (w : World) :
    (get_endpoints resource service jsonpath w).2.outputOf = w.outputOf := rfl

theorem processServices_empty (parse : String → Option IPAddr)
    (region : String) (F : String → CmdResult)
    (hF : ∀ cmd, pySplit ((F cmd).stdout) = []) :
    ∀ (svcs : List String) (st : AggState) (w : World), w.outputOf = F →
      (processServices parse region svcs st w).1 = .ok st ∧
      (processServices parse region svcs st w).2.outputOf = F
  | [], st, w, hw => ⟨rfl, hw⟩
  | s :: rest, st, w, hw => by
    have hq1 : (get_endpoints "services" s svcJsonpath w).1 = [] := by
      rw [get_endpoints_fst, hw, hF]
    have hw2 : (get_endpoints "services" s svcJsonpath w).2.outputOf = F := by
      rw [outputOf_get_endpoints, hw]
    simp only [processServices, processService, hq1, processAddrs]
    exact processServices_empty parse region F hF rest st _ hw2

/-- C2 (amended): a per-service Endpoint Query whose output splits to the
empty address list is tolerated — the services loop leaves the state
untouched and raises nothing — but the gateway query issued when the region
starts with `"us"` is not tolerant: it indexes element `[0]` of the split
output, so an empty gateway result raises `IndexError` and aborts the
cluster iteration. -/
theorem empty_endpoints_tolerance (parse : String → Option IPAddr) :
    (∀ (region service : String) (st : AggState) (w : World),
      (get_endpoints "services" service svcJsonpath w).1 = [] →
      (processService parse region service st w).1 = .ok st) ∧
    (∀ (region : String) (st : AggState) (w : World),
      startswith region "us" = true →
      (get_endpoints gwResource "nomulus" gwJsonpath w).1 = [] →
      (gatewayStage parse region st w).1 = .error .indexError) ∧
    (∀ (cluster region project : String) (st : AggState) (w : World)
        (F : String → CmdResult),
      w.outputOf = F →
      (∀ cmd, pySplit ((F cmd).stdout) = []) →
      startswith region "us" = true →
      (processCluster parse cluster region project st w).1
        = .error .indexError) := by
  refine ⟨?_, ?_, ?_⟩
  · intro region service st w hq
    simp only [processService, hq, processAddrs]
  · intro region st w hus hq
    have hfalse : ¬ startswith region "us" = false := by rw [hus]; simp
    simp only [gatewayStage, if_neg hfalse, hq]
  · intro cluster region project st w F hw hF hus
    rw [processCluster_fst]
    have hw1 : (afterEnter cluster project w).outputOf = F := by
      unfold afterEnter afterCapture
      rw [outputOf_run_command, outputOf_run_command, hw]
    have hps := processServices_empty parse region F hF servicesList st
      (afterEnter cluster project w) hw1
    rcases hp2 : processServices parse region servicesList st
        (afterEnter cluster project w) with ⟨r, w2⟩
    rw [hp2] at hps
    have hr : r = .ok st := hps.1
    subst hr
    show (gatewayStage parse region st w2).1 = .error .indexError
    have hq : (get_endpoints gwResource "nomulus" gwJsonpath w2).1 = [] := by
      rw [get_endpoints_fst]
      rw [show w2.outputOf = F from hps.2, hF]
    have hfalse : ¬ startswith region "us" = false := by rw [hus]; simp
    simp only [gatewayStage, if_neg hfalse, hq]

/-- C2 counterexample: with every command returning empty output, a cluster
in region `"us-central1"` makes the gateway `[0]` indexing raise
`IndexError` — the empty gateway result aborts the run instead of being
tolerated by the caller. -/
theorem empty_gateway_not_tolerated :
    (processCluster (fun _ => none) "nomulus-cluster-a" "us-central1" "proj"
        (([], [])) wEmpty).1 = .error .indexError := rfl

theorem empty_endpoints_tolerance_witness :
    ((get_endpoints "services" "whois" svcJsonpath wEmpty).1 = [] ∧
      (processService (fun _ => none) "us-central1" "whois" (([], []))
          wEmpty).1 = .ok (([], []))) ∧
    (startswith "us-central1" "us" = true ∧
      (get_endpoints gwResource "nomulus" gwJsonpath wEmpty).1 = [] ∧
      (gatewayStage (fun _ => none) "us-central1" (([], [])) wEmpty).1
        = .error .indexError) ∧
    (wEmpty.outputOf = emptyOut ∧
      (∀ cmd, pySplit ((emptyOut cmd).stdout) = []) ∧
      startswith "us-central1" "us" = true ∧
      (processCluster (fun _ => none) "c" "us-central1" "p" (([], []))
          wEmpty).1 = .error .indexError) :=
  ⟨⟨rfl, (empty_endpoints_tolerance (fun _ => none)).1 "us-central1" "whois"
      (([], [])) wEmpty rfl⟩,
   ⟨rfl, rfl, (empty_endpoints_tolerance (fun _ => none)).2.1 "us-central1"
      (([], [])) wEmpty rfl rfl⟩,
   ⟨rfl, fun _ => rfl, rfl, (empty_endpoints_tolerance (fun _ => none)).2.2
      "c" "us-central1" "p" (([], [])) wEmpty emptyOut rfl (fun _ => rfl)
      rfl⟩⟩

theorem composite_key_spec_witness :
    insertEndpoint "whois-canary" "us-east1" (.v6 "::1") (([], [])) =
        .ok stW5 ∧
    map_key_with_iptype "whois-canary" (.v6 "::1")
      = replaceChar '-' '_' "whois-canary" ++
          (if (IPAddr.v6 "::1").is_ipv6 then "_ipv6" else "_ipv4") ∧
    stW5.2 = (([], []) : AggState).2
        ++ [⟨"whois-canary", get_region_symbol "us-east1", .v6 "::1"⟩] ∧
    (∃ m, dictGet? (map_key_with_iptype "whois-canary" (.v6 "::1")) stW5.1
        = some (.nested m) ∧
      dictGet? (get_region_symbol "us-east1") m = some [.v6 "::1"]) ∧
    (∀ k, k ≠ map_key_with_iptype "whois-canary" (.v6 "::1") →
      dictGet? k stW5.1 = dictGet? k (([], []) : AggState).1) :=
  have h : insertEndpoint "whois-canary" "us-east1" (.v6 "::1") (([], []))
      = .ok stW5 := rfl
  have T := composite_key_spec "whois-canary" "us-east1" (.v6 "::1")
    (([], []))
  ⟨h, T.1, (T.2.2 stW5 h).1, (T.2.2 stW5 h).2.1, (T.2.2 stW5 h).2.2⟩

theorem aggregate_singleton_witness :
    (SingletonInv (([], []) : AggState).1 ∧
      insertEndpoint "epp" "us-x" (.v4 "1.2.3.4") (([], [])) = .ok stW6 ∧
      SingletonInv stW6.1 ∧
      (∃ m, dictGet? (map_key_with_iptype "epp" (.v4 "1.2.3.4")) stW6.1
          = some (.nested m) ∧
        dictGet? (get_region_symbol "us-x") m = some [.v4 "1.2.3.4"])) ∧
    (processCluster (fun _ => none) "c" "europe-west1" "p" (([], []))
        wEmpty = (.ok (([], [])), wExit) ∧
      SingletonInv (([], []) : AggState).1) ∧
    (runClusters (fun _ => none) "proj" [] (([], [])) wEmpty
        = (.ok (([], [])), wEmpty) ∧
      SingletonInv (([], []) : AggState).1) :=
  have hinv : SingletonInv (([], []) : AggState).1 := by
    intro kv hkv
    cases hkv
  have h5 : insertEndpoint "epp" "us-x" (.v4 "1.2.3.4") (([], []))
      = .ok stW6 := rfl
  have hpc : processCluster (fun _ => none) "c" "europe-west1" "p"
      (([], [])) wEmpty = (.ok (([], [])), wExit) := rfl
  have hrc : runClusters (fun _ => none) "proj" [] (([], [])) wEmpty
      = (.ok (([], [])), wEmpty) := rfl
  have T := aggregate_singleton (fun _ => none)
  ⟨⟨hinv, h5, (T.1 "epp" "us-x" (.v4 "1.2.3.4") (([], [])) stW6 hinv h5).1,
      (T.1 "epp" "us-x" (.v4 "1.2.3.4") (([], [])) stW6 hinv h5).2⟩,
   ⟨hpc, T.2.1 "c" "europe-west1" "p" (([], [])) wEmpty (([], [])) wExit
      hinv hpc⟩,
   ⟨hrc, T.2.2 "proj" [] wEmpty (([], [])) wEmpty hrc⟩⟩

theorem key_ne_https {service : String} (hs : service ∈ servicesList)
    (ip : IPAddr) : map_key_with_iptype service ip ≠ "https_ip" := by
  simp only [servicesList, List.mem_cons, List.not_mem_nil, or_false]
    at hs
  rcases hs with rfl | rfl | rfl | rfl <;> cases ip <;>
    simp only [map_key_with_iptype] <;> decide

theorem insertEndpoint_preserves_https {service region : String}
    {ip : IPAddr} {st st' : AggState}
    (hk : map_key_with_iptype service ip ≠ "https_ip")
    (h : insertEndpoint service region ip st = .ok st') :
    dictGet? "https_ip" st'.1 = dictGet? "https_ip" st.1 := by
  rw [insertEndpoint_eq] at h
  rcases h0 : dictGet? (map_key_with_iptype service ip) st.1 with _ | v
  · rw [h0] at h
    cases h
    rw [dictGet?_dictSet_ne (Ne.symm hk), dictGet?_dictSet_ne (Ne.symm hk)]
  · rcases v with m | a
    · rw [h0] at h
      cases h
      rw [dictGet?_dictSet_ne (Ne.symm hk)]
    · rw [h0] at h
      cases h

theorem processAddrs_preserves_https (parse : String → Option IPAddr)
    (service region : String)
    (hk : ∀ ip : IPAddr, map_key_with_iptype service ip ≠ "https_ip") :
    ∀ (addrs : List String) (st st' : AggState),
      processAddrs parse service region addrs st = .ok st' →
      dictGet? "https_ip" st'.1 = dictGet? "https_ip" st.1
  | [], st, st', h => by
    simp only [processAddrs, Except.ok.injEq] at h
    rw [← h]
  | a :: rest, st, st', h => by
    simp only [processAddrs] at h
    rcases hp : parse a with _ | ip
    · simp only [hp] at h
      exact Except.noConfusion h
    · simp only [hp] at h
      rcases hi : insertEndpoint service region ip st with e | st1
      · simp only [hi] at h
        exact Except.noConfusion h
      · simp only [hi] at h
        rw [processAddrs_preserves_https parse service region hk rest st1
            st' h,
          insertEndpoint_preserves_https (hk ip) hi]

theorem processServices_preserves_https (parse : String → Option IPAddr)
    (region : String) :
    ∀ (svcs : List String),
      (∀ s ∈ svcs, ∀ ip : IPAddr, map_key_with_iptype s ip ≠ "https_ip") →
      ∀ (st : AggState) (w : World) (st' : AggState) (w' : World),
        processServices parse region svcs st w = (.ok st', w') →
        dictGet? "https_ip" st'.1 = dictGet? "https_ip" st.1
  | [], _, st, w, st', w', h => by
    simp only [processServices, Prod.mk.injEq, Except.ok.injEq] at h
    rw [← h.1]
  | s :: rest, hk, st, w, st', w', h => by
    simp only [processServices, processService] at h
    rcases hr : processAddrs parse s region
        (get_endpoints "services" s svcJsonpath w).1 st with e | st1
    · simp only [hr] at h
      exact Except.noConfusion (congrArg Prod.fst h)
    · simp only [hr] at h
      rw [processServices_preserves_https parse region rest
          (fun x hx => hk x (List.mem_cons_of_mem s hx)) st1 _ st' w' h,
        processAddrs_preserves_https parse s region
          (hk s (List.mem_cons_self s rest)) _ st st1 hr]

/-- C7: inside each cluster iteration the services loop is followed by the
gateway stage; a region not starting with `"us"` leaves `"https_ip"`
unchanged across a successful cluster iteration; a region starting with
`"us"` queries the gateway resource kind for the fixed object name
`nomulus` (one fixed command, recorded in the log), takes only the first
value of the split output, prints `nomulus: <raw value>` immediately,
parses the value, and stores it under the fixed key `"https_ip"`,
overwriting whatever that key held — so the last qualifying region
processed wins. -/
theorem https_ip_behavior (parse : String → Option IPAddr) :
    (∀ (cluster region project : String) (st : AggState) (w : World)
        (st2 : AggState) (w2 : World),
      processServices parse region servicesList st
          (afterEnter cluster project w) = (.ok st2, w2) →
      (processCluster parse cluster region project st w).1
        = (gatewayStage parse region st2 w2).1) ∧
    (∀ (cluster region project : String) (st : AggState) (w : World)
        (st' : AggState) (w' : World),
      startswith region "us" = false →
      processCluster parse cluster region project st w = (.ok st', w') →
      dictGet? "https_ip" st'.1 = dictGet? "https_ip" st.1) ∧
    (∀ (region : String) (st : AggState) (w : World) (ip : String)
        (rest : List String) (a : IPAddr),
      startswith region "us" = true →
      (get_endpoints gwResource "nomulus" gwJsonpath w).1 = ip :: rest →
      parse ip = some a →
      gatewayStage parse region st w
        = (.ok (dictSet "https_ip" (.single a) st.1, st.2),
           ⟨(get_endpoints gwResource "nomulus" gwJsonpath w).2.context,
            (get_endpoints gwResource "nomulus" gwJsonpath w).2.outputOf,
            (get_endpoints gwResource "nomulus" gwJsonpath w).2.log,
            (get_endpoints gwResource "nomulus" gwJsonpath w).2.printed
              ++ ["nomulus: " ++ ip]⟩) ∧
      dictGet? "https_ip" (dictSet "https_ip" (.single a) st.1)
        = some (.single a) ∧
      (get_endpoints gwResource "nomulus" gwJsonpath w).2.log
        = w.log ++ ["kubectl get " ++ gwResource ++ "/" ++ "nomulus"
            ++ " -o jsonpath=" ++ gwJsonpath]) := by
  refine ⟨?_, ?_, ?_⟩
  · intro cluster region project st w st2 w2 hps
    rw [processCluster_fst, hps]
  · intro cluster region project st w st' w' hus h
    have h1 : (processCluster parse cluster region project st w).1
        = .ok st' := by rw [h]
    rw [processCluster_fst] at h1
    rcases hps : processServices parse region servicesList st
        (afterEnter cluster project w) with ⟨r, w2⟩
    rw [hps] at h1
    rcases r with e | st2
    · exact Except.noConfusion h1
    · have h2 : (Except.ok st2 : Except PyErr AggState) = Except.ok st' := by
        have h3 : (gatewayStage parse region st2 w2).1 = .ok st' := h1
        unfold gatewayStage at h3
        rw [if_pos hus] at h3
        exact h3
      injection h2 with h4
      subst h4
      exact processServices_preserves_https parse region servicesList
        (fun s hs ip => key_ne_https hs ip) st _ st2 w2 hps
  · intro region st w ip rest a hus hg hp
    have hfalse : ¬ startswith region "us" = false := by rw [hus]; simp
    refine ⟨?_, dictGet?_dictSet_self _ _ _, rfl⟩
    unfold gatewayStage
    rw [if_neg hfalse]
    simp only [hg, hp]

theorem https_ip_behavior_witness :
    (processServices parseV4 "europe-west1" servicesList (([], []))
        (afterEnter "c" "p" wEmpty) = (.ok (([], [])), wSvcDone) ∧
      (processCluster parseV4 "c" "europe-west1" "p" (([], [])) wEmpty).1
        = (gatewayStage parseV4 "europe-west1" (([], [])) wSvcDone).1) ∧
    (startswith "europe-west1" "us" = false ∧
      processCluster parseV4 "c" "europe-west1" "p" (([], [])) wEmpty
        = (.ok (([], [])), wExit) ∧
      dictGet? "https_ip" (([], []) : AggState).1
        = dictGet? "https_ip" (([], []) : AggState).1) ∧
    (startswith "us-central1" "us" = true ∧
      (get_endpoints gwResource "nomulus" gwJsonpath wV4).1
        = "1.2.3.4" :: [] ∧
      parseV4 "1.2.3.4" = some (.v4 "1.2.3.4") ∧
      gatewayStage parseV4 "us-central1" (([], [])) wV4
        = (.ok (dictSet "https_ip" (.single (.v4 "1.2.3.4"))
              (([], []) : AggState).1, (([], []) : AggState).2),
           ⟨(get_endpoints gwResource "nomulus" gwJsonpath wV4).2.context,
            (get_endpoints gwResource "nomulus" gwJsonpath wV4).2.outputOf,
            (get_endpoints gwResource "nomulus" gwJsonpath wV4).2.log,
            (get_endpoints gwResource "nomulus" gwJsonpath wV4).2.printed
              ++ ["nomulus: " ++ "1.2.3.4"]⟩) ∧
      dictGet? "https_ip"
          (dictSet "https_ip" (.single (.v4 "1.2.3.4"))
            (([], []) : AggState).1)
        = some (.single (.v4 "1.2.3.4")) ∧
      (get_endpoints gwResource "nomulus" gwJsonpath wV4).2.log
        = wV4.log ++ ["kubectl get " ++ gwResource ++ "/" ++ "nomulus"
            ++ " -o jsonpath=" ++ gwJsonpath]) :=
  have hps : processServices parseV4 "europe-west1" servicesList (([], []))
      (afterEnter "c" "p" wEmpty) = (.ok (([], [])), wSvcDone) := rfl
  have hpc : processCluster parseV4 "c" "europe-west1" "p" (([], []))
      wEmpty = (.ok (([], [])), wExit) := rfl
  have T := https_ip_behavior parseV4
  have T3 := T.2.2 "us-central1" (([], [])) wV4 "1.2.3.4" [] (.v4 "1.2.3.4")
    rfl rfl rfl
  ⟨⟨hps, T.1 "c" "europe-west1" "p" (([], [])) wEmpty (([], [])) wSvcDone
      hps⟩,
   ⟨rfl, hpc, T.2.1 "c" "europe-west1" "p" (([], [])) wEmpty (([], []))
      wExit rfl hpc⟩,
   ⟨rfl, rfl, rfl, T3.1, T3.2.1, T3.2.2⟩⟩

end GetEndpoints
